import Mathlib

/-!
Shallow embedding of the spreadsheet-annotation engine of
`pre-sales-frontend` (the `exportUploadedExcelWithEstimates` pipeline and
its helpers: `norm`, `isRowEmpty`, `findHeaderRowIndex`, `pickColumnIndex`,
`headerLabel`, the lookup maps, the row-resolution fallback chain, the
column appender and the sheet/workbook write-back), together with proofs
settling the specification claims about it.

Modelling conventions:
* a spreadsheet cell is a scalar, either text or a (rational) number;
* JS strings are Lean `String`s; JS numbers are `ℚ` (the idealisation of
  finite doubles — all inputs of interest are small integers);
* `Number(x)` string-to-number coercion is modelled for finite decimal
  results (`jsStrToNum`); hex/octal/binary literals are not modelled (the
  engine never receives them), and non-finite results (`NaN`, `±Infinity`)
  are `none`, which is exactly how the engine's `Number.isFinite` guard
  treats them;
* a JS `Map` is modelled as an insertion-ordered association list with
  `set` replacing in place (`mapSet`) and `get` returning the entry for a
  key (`mapGet`), matching JS `Map` semantics;
* a worksheet is modelled as the array-of-arrays grid the engine reads
  from it (`getAoa` with `defval:""` — a missing cell reads as text "");
  a workbook is the ordered list of named worksheets;
* the `File` input is its name plus the workbook parsed from its bytes
  (structural parse failure of the container is out of scope).
-/

namespace Annotate

/-- A spreadsheet cell scalar: text or a number (blank = text ""). -/
inductive Cell where
  | text (s : String)
  | num (q : ℚ)
deriving DecidableEq

/-- Decimal digits of a natural number (fuel-indexed helper). -/
def natToCharsAux : Nat → Nat → List Char
  | 0, _ => []
  | fuel + 1, n =>
    if n < 10 then [Char.ofNat (48 + n)]
    else natToCharsAux fuel (n / 10) ++ [Char.ofNat (48 + n % 10)]

/-- Decimal digits of a natural number. -/
def natToChars (n : Nat) : List Char := natToCharsAux (n + 1) n

/-- Decimal rendering of an integer, as JS renders integral numbers. -/
def intToChars (i : Int) : List Char :=
  if i < 0 then '-' :: natToChars i.natAbs else natToChars i.natAbs

/-- Rendering of a number as a JS string (`String(v)`), needed only to
decide blankness / name equality of numeric cells; integers render as in
JS, non-integers render as a fraction (the engine never compares their
exact text). -/
def qToString (q : ℚ) : String :=
  if q.den = 1 then String.mk (intToChars q.num)
  else String.mk (intToChars q.num ++ '/' :: natToChars q.den)

/-- JS `String(v ?? "")` on a cell value. -/
def cellToString : Cell → String
  | .text s => s
  | .num q => qToString q

/-- Split a character list at every whitespace character (adjacent
whitespace yields empty pieces), accumulating the current piece. -/
def splitWsAux : List Char → List Char → List (List Char)
  | [], acc => [acc.reverse]
  | c :: cs, acc =>
    if c.isWhitespace then acc.reverse :: splitWsAux cs []
    else splitWsAux cs (c :: acc)

/-- The source's `norm`: `String(v ?? "").replace(/\s+/g, " ").trim().toLowerCase()`.
Collapsing whitespace runs to single spaces and then trimming is the same
as dropping the empty pieces of a whitespace split and rejoining the rest
with single spaces; `toLowerCase` is per-character lowercasing. -/
def normStr (s : String) : String :=
  String.mk
    ((List.intercalate [' ']
      ((splitWsAux s.data []).filter (fun w => w ≠ []))).map Char.toLower)

/-- `norm` applied to a cell. -/
def normCell (c : Cell) : String := normStr (cellToString c)

/-- `norm(row[i])`: a missing cell (`undefined`) normalises to `""`. -/
def normAt (row : List Cell) (i : Nat) : String :=
  match row.get? i with
  | none => ""
  | some c => normCell c

/-- The source's `isRowEmpty`: every cell normalises to the empty string. -/
def isRowEmpty (row : List Cell) : Bool :=
  row.all (fun c => normCell c == "")

/-- Greedily take leading decimal digits. -/
def takeDigits : List Char → List Char × List Char
  | [] => ([], [])
  | c :: cs =>
    if c.isDigit then
      let (d, r) := takeDigits cs
      (c :: d, r)
    else ([], c :: cs)

/-- Decimal digit list to a natural number. -/
def digitsToNat (ds : List Char) : Nat :=
  ds.foldl (fun a c => a * 10 + (c.toNat - 48)) 0

/-- Parse an optional exponent sign and mandatory digits, to end of input. -/
def parseExpDigits (cs : List Char) : Option Int :=
  let (sgn, r) :=
    match cs with
    | '+' :: r => ((1 : Int), r)
    | '-' :: r => ((-1 : Int), r)
    | r => ((1 : Int), r)
  match takeDigits r with
  | ([], _) => none
  | (ds, []) => some (sgn * (digitsToNat ds : Int))
  | (_, _ :: _) => none

/-- Assemble integer part, fraction digits and an optional exponent tail. -/
def finishNum (ip : Nat) (fds : List Char) (rest : List Char) : Option ℚ :=
  let base : ℚ := (ip : ℚ) + (digitsToNat fds : ℚ) / ((10 : ℚ) ^ fds.length)
  match rest with
  | [] => some base
  | 'e' :: r => (parseExpDigits r).map (fun e => base * (10 : ℚ) ^ e)
  | 'E' :: r => (parseExpDigits r).map (fun e => base * (10 : ℚ) ^ e)
  | _ => none

/-- Parse an unsigned decimal literal (`digits[.digits][exp]` or
`.digits[exp]`), whole input. -/
def parseUnsigned (cs : List Char) : Option ℚ :=
  match takeDigits cs with
  | ([], '.' :: rest) =>
    match takeDigits rest with
    | ([], _) => none
    | (fds, rest2) => finishNum 0 fds rest2
  | ([], _) => none
  | (ids, rest) =>
    match rest with
    | '.' :: rest2 =>
      let (fds, rest3) := takeDigits rest2
      finishNum (digitsToNat ids) fds rest3
    | _ => finishNum (digitsToNat ids) [] rest

/-- Finite results of JS `Number(string)`: trim whitespace, empty means 0,
otherwise an optionally signed decimal literal; `none` models `NaN` and
`±Infinity` (both rejected by the engine's `Number.isFinite` guard). -/
def jsStrToNum (s : String) : Option ℚ :=
  let t := ((s.toList.dropWhile Char.isWhitespace).reverse.dropWhile
    Char.isWhitespace).reverse
  match t with
  | [] => some 0
  | '+' :: r => parseUnsigned r
  | '-' :: r => (parseUnsigned r).map (fun q => -q)
  | r => parseUnsigned r

/-- JS `Number(cell)` restricted to finite results. -/
def cellToNum : Cell → Option ℚ
  | .num q => some q
  | .text s => jsStrToNum s

/-- `Number(row[i])` restricted to finite results; a missing cell
(`undefined`) coerces to `NaN`, i.e. `none`. -/
def numAt (row : List Cell) (i : Nat) : Option ℚ :=
  (row.get? i).bind cellToNum

/-- A JS `Map` as an insertion-ordered association list. -/
abbrev JsMap (α β : Type) := List (α × β)

/-- JS `Map.has`. -/
def mapHas [DecidableEq α] (m : JsMap α β) (k : α) : Bool :=
  m.any (fun e => e.1 = k)

/-- JS `Map.get` (`none` = `undefined`). -/
def mapGet [DecidableEq α] (m : JsMap α β) (k : α) : Option β :=
  (m.find? (fun e => e.1 = k)).map (fun e => e.2)

/-- JS `Map.set`: replace in place if the key is present, else append. -/
def mapSet [DecidableEq α] (m : JsMap α β) (k : α) (v : β) : JsMap α β :=
  if mapHas m k then m.map (fun e => if e.1 = k then (k, v) else e)
  else m ++ [(k, v)]

/-- The engine's department tags (the `DEPARTMENTS` constant of the
annotation module: frontend, backend, mobile, htmlCss, aiMl). -/
inductive Department where
  | frontend
  | backend
  | mobile
  | htmlCss
  | aiMl
deriving DecidableEq

/-- `const DEPARTMENTS = ["frontend", "backend", "mobile", "htmlCss", "aiMl"]`. -/
def DEPARTMENTS : List Department :=
  [.frontend, .backend, .mobile, .htmlCss, .aiMl]

/-- A three-point estimate (`HoursRange`). -/
structure HoursRange where
  min : ℚ
  mostLikely : ℚ
  max : ℚ
deriving DecidableEq

/-- `Record<Department, HoursRange>`: one range per department tag. -/
structure Ranges where
  frontend : HoursRange
  backend : HoursRange
  mobile : HoursRange
  htmlCss : HoursRange
  aiMl : HoursRange
deriving DecidableEq

/-- Indexing a `Record<Department, HoursRange>` by department tag. -/
def Ranges.get (rs : Ranges) : Department → HoursRange
  | .frontend => rs.frontend
  | .backend => rs.backend
  | .mobile => rs.mobile
  | .htmlCss => rs.htmlCss
  | .aiMl => rs.aiMl

/-- The `EditableRow` result record consumed by the export engine. -/
structure EditableRow where
  featureIndex : ℚ
  batch : String
  featureName : String
  featureDescription : String
  confidence : String
  complexity : String
  techRemarks : String
  userRemark : String
  ranges : Ranges
deriving DecidableEq

/-- The keys of an `HoursRange` (`keyof HoursRange`). -/
inductive RangeKey where
  | min
  | mostLikely
  | max
deriving DecidableEq

/-- The `deptLabel` table of the source's `headerLabel`. -/
def deptLabel : Department → String
  | .frontend => "Frontend"
  | .backend => "Backend"
  | .mobile => "Mobile"
  | .htmlCss => "HTML/CSS"
  | .aiMl => "AI/ML"

/-- The `keyLabel` table of the source's `headerLabel`. -/
def keyLabel : RangeKey → String
  | .min => "Min"
  | .mostLikely => "MostLikely"
  | .max => "Max"

/-- The source's `headerLabel`: `` `AI ${deptLabel[dept]} ${keyLabel[k]}` ``. -/
def headerLabel (d : Department) (k : RangeKey) : String :=
  "AI " ++ deptLabel d ++ " " ++ keyLabel k

/-- The `appendedHeaders` list built by the export: three per department in
enumeration order, then the four scalar headers. -/
def appendedHeaders : List String :=
  (DEPARTMENTS.flatMap fun d =>
    [headerLabel d .min, headerLabel d .mostLikely, headerLabel d .max])
  ++ ["AI Confidence", "AI Complexity", "AI Tech Remarks", "AI User Remark"]

/-- The source's `findHeaderRowIndex` loop, carrying the current index:
return the first index whose row is non-empty (as an array of positive
length whose cells do not all normalise to ""); fall through to 0. -/
def findHeaderRowIndexAux : List (List Cell) → Nat → Nat
  | [], _ => 0
  | row :: rest, i =>
    if 0 < row.length ∧ ¬ isRowEmpty row then i
    else findHeaderRowIndexAux rest (i + 1)

/-- The source's `findHeaderRowIndex`. -/
def findHeaderRowIndex (aoa : List (List Cell)) : Nat :=
  findHeaderRowIndexAux aoa 0

/-- The header-matching regexes are anchored whole-string patterns over
`norm`-alised text, so each is a decidable predicate on that text; in a
normalised string every whitespace run is a single space, so `\s*` matches
either one space or nothing. `/^feature$/`, `/^features$/`,
`/^feature\s*name$/`, `/^title$/`, `/^name$/`. -/
def featureCandidates : List (String → Bool) :=
  [fun c => c == "feature",
   fun c => c == "features",
   fun c => c == "feature name" || c == "featurename",
   fun c => c == "title",
   fun c => c == "name"]

/-- `/^sr\.?\s*no\.?$/` over a normalised cell: all eight combinations of
the optional dots and the optional single space. -/
def srNoForms : List String :=
  ["sr no", "sr no.", "sr. no", "sr. no.", "srno", "srno.", "sr.no", "sr.no."]

/-- `/^s\.?\s*no\.?$/` over a normalised cell. -/
def sNoForms : List String :=
  ["s no", "s no.", "s. no", "s. no.", "sno", "sno.", "s.no", "s.no."]

/-- `/^feature\s*index$/`, `/^index$/`, `/^sr\.?\s*no\.?$/`, `/^s\.?\s*no\.?$/`. -/
def featureIndexCandidates : List (String → Bool) :=
  [fun c => c == "feature index" || c == "featureindex",
   fun c => c == "index",
   fun c => srNoForms.contains c,
   fun c => sNoForms.contains c]

/-- Inner loop of `pickColumnIndex` over the normalised header texts. -/
def pickColumnIndexAux (h : List String) : List (String → Bool) → Int
  | [] => -1
  | re :: rest =>
    match List.findIdx? re h with
    | some i => (i : Int)
    | none => pickColumnIndexAux h rest

/-- The source's `pickColumnIndex`: normalise every header cell, then try
the candidate patterns in priority order, returning the first column index
any of them matches, or -1. -/
def pickColumnIndex (headerRow : List Cell) (candidates : List (String → Bool)) : Int :=
  pickColumnIndexAux (headerRow.map normCell) candidates

/-- The lookup-building loop: for each record, `byFeatureIndex.set(Number(r.featureIndex), r)`
(later records overwrite), and `byFeatureName.set(key, r)` only when the
normalised name is non-empty and not yet present (first record wins). -/
def buildLookups (rows : List EditableRow) :
    JsMap ℚ EditableRow × JsMap String EditableRow :=
  rows.foldl
    (fun ms r =>
      let mi := mapSet ms.1 r.featureIndex r
      let key := normStr r.featureName
      let mn := if key ≠ "" ∧ ¬ mapHas ms.2 key then mapSet ms.2 key r else ms.2
      (mi, mn))
    ([], [])

/-- The `byFeatureIndex` map. -/
def byFeatureIndex (rows : List EditableRow) : JsMap ℚ EditableRow :=
  (buildLookups rows).1

/-- The `byFeatureName` map. -/
def byFeatureName (rows : List EditableRow) : JsMap String EditableRow :=
  (buildLookups rows).2

/-- Stable insertion of a record into a `featureIndex`-sorted list: it
lands before the first element that is not strictly below it, i.e. before
any element with an equal key — preserving input order among equals. -/
def orderedInsertByFi (a : EditableRow) : List EditableRow → List EditableRow
  | [] => [a]
  | b :: bs =>
    if a.featureIndex ≤ b.featureIndex then a :: b :: bs
    else b :: orderedInsertByFi a bs

/-- `[...rows].sort((a, b) => Number(a.featureIndex) - Number(b.featureIndex))`:
ES2019 requires `Array.prototype.sort` to be stable, and a stable
ascending sort by `featureIndex` is a unique function of the input, so the
sort is modelled by stable insertion sort. -/
def sortByFeatureIndex : List EditableRow → List EditableRow
  | [] => []
  | a :: rest => orderedInsertByFi a (sortByFeatureIndex rest)

/-- Rule 1 of the resolution chain: if the feature-index column exists and
the cell coerces to a finite number, look it up in `byFeatureIndex`. -/
def indexHit (rows : List EditableRow) (featureIndexCol : Int) (row : List Cell) :
    Option EditableRow :=
  if 0 ≤ featureIndexCol then
    match numAt row featureIndexCol.toNat with
    | some v => mapGet (byFeatureIndex rows) v
    | none => none
  else none

/-- Rule 2: if the feature-name column exists, look the normalised cell
text up in `byFeatureName` (a missing cell normalises to "", which is
never a key of the map). -/
def nameHit (rows : List EditableRow) (featureCol : Int) (row : List Cell) :
    Option EditableRow :=
  if 0 ≤ featureCol then mapGet (byFeatureName rows) (normAt row featureCol.toNat)
  else none

/-- The source's per-row resolution chain: index match, then name match,
then the positional fallback `sorted[r - (headerRowIndex + 1)]`. -/
def resolveRow (rows : List EditableRow) (featureIndexCol featureCol : Int)
    (row : List Cell) (dataRowOrdinal : Nat) : Option EditableRow :=
  match indexHit rows featureIndexCol row with
  | some h => some h
  | none =>
    match nameHit rows featureCol row with
    | some h => some h
    | none => (sortByFeatureIndex rows).get? dataRowOrdinal

/-- The 19 cells written for a matched row: min/mostLikely/max per
department in enumeration order, then confidence, complexity, techRemarks,
userRemark. -/
def rowValues (h : EditableRow) : List Cell :=
  (DEPARTMENTS.flatMap fun d =>
    [Cell.num (h.ranges.get d).min, Cell.num (h.ranges.get d).mostLikely,
     Cell.num (h.ranges.get d).max])
  ++ [Cell.text h.confidence, Cell.text h.complexity,
      Cell.text h.techRemarks, Cell.text h.userRemark]

/-- `while (row.length < n) row.push("")`. -/
def padTo (row : List Cell) (n : Nat) : List Cell :=
  row ++ List.replicate (n - row.length) (Cell.text "")

/-- The write loop `row[c++] = v` starting at column `i`. -/
def writeVals : List Cell → Nat → List Cell → List Cell
  | l, _, [] => l
  | l, i, v :: vs => writeVals (l.set i v) (i + 1) vs

/-- One iteration of the data-row loop: blank rows are skipped untouched;
otherwise resolve, pad to the new total column count, and write the
resolved record's values starting at column `baseLen` (if any). -/
def annotateDataRow (rows : List EditableRow) (featureIndexCol featureCol : Int)
    (baseLen : Nat) (dataRowOrdinal : Nat) (row : List Cell) : List Cell :=
  if isRowEmpty row then row
  else
    let hit := resolveRow rows featureIndexCol featureCol row dataRowOrdinal
    let padded := padTo row (baseLen + appendedHeaders.length)
    match hit with
    | none => padded
    | some h => writeVals padded baseLen (rowValues h)

/-- The whole-grid pass, carrying the absolute row index: rows before the
header are untouched, the header row becomes `headerRow ++ appendedHeaders`,
and each later row goes through the data-row loop with ordinal
`r - (headerRowIndex + 1)`. -/
def transformAoaAux (rows : List EditableRow) (featureIndexCol featureCol : Int)
    (baseLen hIdx : Nat) (newHeader : List Cell) :
    Nat → List (List Cell) → List (List Cell)
  | _, [] => []
  | r, row :: rest =>
    (if r = hIdx then newHeader
     else if r < hIdx then row
     else annotateDataRow rows featureIndexCol featureCol baseLen (r - (hIdx + 1)) row)
    :: transformAoaAux rows featureIndexCol featureCol baseLen hIdx newHeader (r + 1) rest

/-- The annotation of one grid, exactly as the export body computes it
between locating the header and writing the sheet back. -/
def annotateAoa (rows : List EditableRow) (aoa : List (List Cell)) :
    List (List Cell) :=
  let hIdx := findHeaderRowIndex aoa
  let headerRow := (aoa.get? hIdx).getD []
  let featureCol := pickColumnIndex headerRow featureCandidates
  let featureIndexCol := pickColumnIndex headerRow featureIndexCandidates
  let baseLen := headerRow.length
  let newHeader := headerRow ++ appendedHeaders.map Cell.text
  transformAoaAux rows featureIndexCol featureCol baseLen hIdx newHeader 0 aoa

/-- A worksheet, as the grid the engine reads from it. -/
abbrev Sheet := List (List Cell)

/-- A workbook: the ordered, named worksheets. -/
structure Workbook where
  sheets : List (String × Sheet)
deriving DecidableEq

/-- `wb.SheetNames`. -/
def sheetNamesOf (wb : Workbook) : List String :=
  wb.sheets.map (fun e => e.1)

/-- `wb.SheetNames[1] ?? wb.SheetNames[0]` (the sheet-selection policy). -/
def selectedSheetName (wb : Workbook) : Option String :=
  ((sheetNamesOf wb).get? 1).orElse (fun _ => (sheetNamesOf wb).get? 0)

/-- `wb.Sheets[sheetName]`: the raw worksheet looked up by `getAoa`; a
stored row lists its present cells from column 0 to its last present cell,
so the stored grid may be ragged and may contain cell-less rows. -/
def getSheet (wb : Workbook) (name : String) : Option Sheet :=
  (wb.sheets.find? (fun e => e.1 = name)).map (fun e => e.2)

/-- The sheet's full column range width (the widest row). -/
def sheetWidth (ws : Sheet) : Nat :=
  (ws.map List.length).foldr Nat.max 0

/-- The parse half of the source's `getAoa`:
`sheet_to_json(ws, { header: 1, defval: "", blankrows: false })` drops rows
holding no cell at all, and fills every missing in-range cell with the
text `""`, so every emitted row has the sheet's full column width — the
grid the engine processes is always rectangular. -/
def getAoa (ws : Sheet) : Sheet :=
  (ws.filter (fun row => row ≠ [])).map
    (fun row => row ++ List.replicate (sheetWidth ws - row.length) (Cell.text ""))

/-- The source's `writeAoa`: `wb.Sheets[sheetName] = aoa_to_sheet(aoa)` —
replace the named sheet's grid, leave every other sheet alone. -/
def writeAoa (wb : Workbook) (name : String) (aoa : Sheet) : Workbook :=
  ⟨wb.sheets.map (fun e => if e.1 = name then (name, aoa) else e)⟩

/-- `originalFile.name.replace(/\.(xlsx|xls)$/i, "")`: strip a
case-insensitive trailing `.xlsx` or `.xls`. -/
def stripSpreadsheetExt (name : String) : String :=
  let low := name.data.map Char.toLower
  if (".xlsx".data).isSuffixOf low then
    String.mk (name.data.take (name.data.length - 5))
  else if (".xls".data).isSuffixOf low then
    String.mk (name.data.take (name.data.length - 4))
  else name

/-- The uploaded `File`: its name, and the workbook its bytes parse to. -/
structure UploadedFile where
  name : String
  wb : Workbook
deriving DecidableEq

/-- The errors the export throws. -/
inductive ExportError where
  | missingFile
  | noEstimatesProvided
  | noSheetsFound
  | sheetNotFound
  | emptySheet
  | missingKeyColumn
deriving DecidableEq

/-- What the export hands to the download boundary: the rebuilt workbook
(serialised bytes are its image) and the chosen file name. -/
structure ExportResult where
  wb : Workbook
  fileName : String
deriving DecidableEq

/-- The source's `exportUploadedExcelWithEstimates`, with the download
boundary abstracted into the returned `ExportResult`. -/
def exportUploadedExcelWithEstimates (originalFile : Option UploadedFile)
    (rows : List EditableRow) (outputFileName : Option String) :
    Except ExportError ExportResult :=
  match originalFile with
  | none => .error .missingFile
  | some file =>
    if rows.length = 0 then .error .noEstimatesProvided
    else
      match selectedSheetName file.wb with
      | none => .error .noSheetsFound
      | some sheetName =>
        match getSheet file.wb sheetName with
        | none => .error .sheetNotFound
        | some ws =>
          let aoa := getAoa ws
          if aoa.length = 0 then .error .emptySheet
          else
            let hIdx := findHeaderRowIndex aoa
            let headerRow := (aoa.get? hIdx).getD []
            let featureCol := pickColumnIndex headerRow featureCandidates
            let featureIndexCol := pickColumnIndex headerRow featureIndexCandidates
            if featureCol < 0 ∧ featureIndexCol < 0 then .error .missingKeyColumn
            else
              let newAoa := annotateAoa rows aoa
              let wb2 := writeAoa file.wb sheetName newAoa
              let baseName := stripSpreadsheetExt file.name
              let outName := outputFileName.getD (baseName ++ "_with_estimates.xlsx")
              .ok ⟨wb2, outName⟩

/-- Decidable equality of export outcomes, for evaluating the engine on
concrete inputs. -/
instance exceptDecEq {ε α : Type} [DecidableEq ε] [DecidableEq α] :
    DecidableEq (Except ε α)
  | .error x, .error y =>
    if h : x = y then isTrue (by rw [h])
    else isFalse (by intro hc; cases hc; exact h rfl)
  | .error _, .ok _ => isFalse (by intro hc; cases hc)
  | .ok _, .error _ => isFalse (by intro hc; cases hc)
  | .ok x, .ok y =>
    if h : x = y then isTrue (by rw [h])
    else isFalse (by intro hc; cases hc; exact h rfl)

/-- The cell at (sheet position, row, column) of an export's output, when
the export succeeded and the cell exists. -/
def exportSheetCell (res : Except ExportError ExportResult)
    (sheetIdx r c : Nat) : Option Cell :=
  match res with
  | .error _ => none
  | .ok out =>
    ((out.wb.sheets.get? sheetIdx).bind (fun e => e.2.get? r)).bind
      (fun row => row.get? c)

/-! Concrete fixtures used by the witnesses and counterexamples. -/

/-- The all-zero three-point estimate. -/
def zeroRange : HoursRange := ⟨0, 0, 0⟩

/-- All-zero ranges. -/
def zeroRanges : Ranges := ⟨zeroRange, zeroRange, zeroRange, zeroRange, zeroRange⟩

/-- Frontend 2/4/6, all other departments zero. -/
def frontRangesA : Ranges := ⟨⟨2, 4, 6⟩, zeroRange, zeroRange, zeroRange, zeroRange⟩

/-- Frontend 1/2/3, all other departments zero. -/
def frontRangesB : Ranges := ⟨⟨1, 2, 3⟩, zeroRange, zeroRange, zeroRange, zeroRange⟩

/-- The spec's §8 scenario record for "Login". -/
def recLogin : EditableRow := ⟨1, "", "Login", "", "High", "", "", "", frontRangesA⟩

/-- The spec's §8 scenario record for "Logout". -/
def recLogout : EditableRow := ⟨2, "", "Logout", "", "Low", "", "", "", frontRangesB⟩

/-- The spec's §8 scenario grid. -/
def scenSheet : Sheet :=
  [[.text "Sr No", .text "Feature", .text "Notes"],
   [.num 1, .text "Login", .text "-"],
   [.num 2, .text "Logout", .text "-"]]

/-- A workbook holding the scenario grid on its second sheet. -/
def scenFile : UploadedFile :=
  ⟨"book.xlsx", ⟨[("Cover", [[.text "x"]]), ("Data", scenSheet)]⟩⟩

/-- A ragged grid: the single data row is one cell longer than the header. -/
def raggedSheet : Sheet := [[.text "feature"], [.text "x", .text "extra"]]

/-- A record whose name matches the ragged grid's data row. -/
def recX : EditableRow := ⟨0, "", "x", "", "CONF", "", "", "", frontRangesA⟩

/-- A single-sheet workbook holding the ragged grid. -/
def raggedFile : UploadedFile := ⟨"book.xlsx", ⟨[("S", raggedSheet)]⟩⟩

/-- A grid whose first data row is blank (whitespace) and whose second
data row matches no record by key. -/
def gapSheet : Sheet := [[.text "feature"], [.text " "], [.text "zzz"]]

/-- featureIndex 0, confidence "R0", name matching nothing in `gapSheet`. -/
def recOrd0 : EditableRow := ⟨0, "", "aaa", "", "R0", "", "", "", frontRangesA⟩

/-- featureIndex 1, confidence "R1", name matching nothing in `gapSheet`. -/
def recOrd1 : EditableRow := ⟨1, "", "bbb", "", "R1", "", "", "", frontRangesB⟩

/-- A single-sheet workbook holding `gapSheet`. -/
def gapFile : UploadedFile := ⟨"book.xlsx", ⟨[("S", gapSheet)]⟩⟩

/-- A file whose name carries the `.xls` spreadsheet extension. -/
def xlsFile : UploadedFile := ⟨"data.xls", ⟨[("S", raggedSheet)]⟩⟩

/-- First of two records sharing featureIndex 5 and name "Dup". -/
def dupA : EditableRow := ⟨5, "", "Dup", "", "A", "", "", "", zeroRanges⟩

/-- Second of two records sharing featureIndex 5 and name "Dup". -/
def dupB : EditableRow := ⟨5, "", "Dup", "", "B", "", "", "", zeroRanges⟩

/-! General lemmas about the JS `Map` model. -/

theorem mapHas_eq_isSome [DecidableEq α] (m : JsMap α β) (k : α) :
    mapHas m k = (mapGet m k).isSome := by
  induction m with
  | nil => rfl
  | cons e m ih =>
    by_cases h : e.1 = k
    · simp [mapHas, mapGet, List.any_cons, List.find?_cons, h]
    · simp only [mapHas, mapGet, List.any_cons, List.find?_cons, h] at ih ⊢
      simpa [mapHas, mapGet, h] using ih

theorem mapGet_none_of_not_has [DecidableEq α] {m : JsMap α β} {k : α}
    (h : mapHas m k = false) : mapGet m k = none := by
  have := mapHas_eq_isSome m k
  rw [h] at this
  exact Option.not_isSome_iff_eq_none.mp (by rw [← this]; decide)

theorem mapGet_map_upd [DecidableEq α] (m : JsMap α β) (k : α) (v : β) (k' : α) :
    mapGet (m.map (fun e => if e.1 = k then (k, v) else e)) k'
      = if k' = k then (if mapHas m k then some v else none) else mapGet m k' := by
  induction m with
  | nil => by_cases h : k' = k <;> simp [mapGet, mapHas, h]
  | cons e m ih =>
    simp only [List.map_cons]
    by_cases hek : e.1 = k
    · rw [if_pos hek]
      by_cases hk' : k' = k
      · subst hk'
        unfold mapGet
        rw [List.find?_cons_of_pos _ (by simp)]
        have : mapHas (e :: m) k' = true := by simp [mapHas, List.any_cons, hek]
        rw [this]
        simp
      · unfold mapGet
        rw [List.find?_cons_of_neg _ (by simp; exact fun h => hk' h.symm),
          List.find?_cons_of_neg _ (by simp [hek]; exact fun h => hk' h.symm)]
        unfold mapGet at ih
        rw [ih, if_neg hk', if_neg hk']
    · rw [if_neg hek]
      by_cases hk' : k' = k
      · subst hk'
        unfold mapGet
        rw [List.find?_cons_of_neg _ (by simp [hek])]
        unfold mapGet at ih
        rw [ih, if_pos rfl, if_pos rfl]
        have : mapHas (e :: m) k' = mapHas m k' := by
          simp [mapHas, List.any_cons, hek]
        rw [this]
      · by_cases hek' : e.1 = k'
        · unfold mapGet
          rw [List.find?_cons_of_pos _ (by simp [hek']),
            List.find?_cons_of_pos _ (by simp [hek']), if_neg hk']
        · unfold mapGet
          rw [List.find?_cons_of_neg _ (by simp [hek']),
            List.find?_cons_of_neg _ (by simp [hek'])]
          unfold mapGet at ih
          rw [ih, if_neg hk', if_neg hk']

theorem mapGet_mapSet [DecidableEq α] (m : JsMap α β) (k : α) (v : β) (k' : α) :
    mapGet (mapSet m k v) k' = if k' = k then some v else mapGet m k' := by
  unfold mapSet
  by_cases hk : mapHas m k
  · rw [if_pos hk, mapGet_map_upd, hk]
    by_cases hk' : k' = k <;> simp [hk']
  · rw [if_neg (by simp [hk])]
    unfold mapGet
    rw [List.find?_append]
    by_cases hk' : k' = k
    · subst hk'
      have hnone := mapGet_none_of_not_has (by simpa using hk)
      unfold mapGet at hnone
      rcases h : List.find? (fun e => decide (e.1 = k')) m with _ | e
      · rw [h, Option.none_or, List.find?_cons_of_pos _ (by simp)]
        simp
      · rw [h] at hnone; simp at hnone
    · rw [List.find?_cons_of_neg _ (by simp; exact fun h => hk' h.symm)]
      simp only [List.find?_nil, Option.or_none, if_neg hk']

/-! Characterisation of the two lookup maps built by the export. -/

theorem buildLookups_fold (l : List EditableRow)
    (mi : JsMap ℚ EditableRow) (mn : JsMap String EditableRow) :
    l.foldl
      (fun ms r =>
        let mi := mapSet ms.1 r.featureIndex r
        let key := normStr r.featureName
        let mn := if key ≠ "" ∧ ¬ mapHas ms.2 key then mapSet ms.2 key r else ms.2
        (mi, mn))
      (mi, mn)
    = (l.foldl (fun m r => mapSet m r.featureIndex r) mi,
       l.foldl
        (fun m r =>
          let key := normStr r.featureName
          if key ≠ "" ∧ ¬ mapHas m key then mapSet m key r else m)
        mn) := by
  induction l generalizing mi mn with
  | nil => rfl
  | cons r l ih => simpa using ih (mapSet mi r.featureIndex r) _

theorem idxFold_get (l : List EditableRow) (m : JsMap ℚ EditableRow) (v : ℚ) :
    mapGet (l.foldl (fun m r => mapSet m r.featureIndex r) m) v
      = (l.reverse.find? (fun r => decide (r.featureIndex = v))).or (mapGet m v) := by
  induction l generalizing m with
  | nil => simp
  | cons r l ih =>
    rw [List.foldl_cons, ih, List.reverse_cons, List.find?_append, Option.or_assoc]
    congr 1
    rw [mapGet_mapSet]
    by_cases hv : r.featureIndex = v
    · rw [List.find?_cons_of_pos _ (by simp [hv]), if_pos hv.symm]
      rfl
    · rw [List.find?_cons_of_neg _ (by simp [hv]), if_neg (fun h => hv h.symm)]
      simp

theorem mapGet_byFeatureIndex (rows : List EditableRow) (v : ℚ) :
    mapGet (byFeatureIndex rows) v
      = rows.reverse.find? (fun r => decide (r.featureIndex = v)) := by
  unfold byFeatureIndex buildLookups
  rw [buildLookups_fold, idxFold_get]
  simp [mapGet]

theorem nameFold_get (l : List EditableRow) (m : JsMap String EditableRow)
    (k : String) :
    mapGet
      (l.foldl
        (fun m r =>
          let key := normStr r.featureName
          if key ≠ "" ∧ ¬ mapHas m key then mapSet m key r else m)
        m) k
      = (mapGet m k).or
          (if k = "" then none
           else l.find? (fun r => decide (normStr r.featureName = k))) := by
  induction l generalizing m with
  | nil => by_cases hk : k = "" <;> simp [hk]
  | cons r l ih =>
    rw [List.foldl_cons, ih]
    by_cases hk : k = ""
    · simp only [if_pos hk, Option.or_none]
      by_cases hins : normStr r.featureName ≠ "" ∧ ¬ mapHas m (normStr r.featureName)
      · simp only [if_pos hins]
        rw [mapGet_mapSet, if_neg (by rw [hk]; exact fun h => hins.1 h.symm)]
      · simp only [if_neg hins]
    · simp only [if_neg hk]
      by_cases hkey : normStr r.featureName = k
      · have hkne : normStr r.featureName ≠ "" := by rw [hkey]; exact hk
        rw [List.find?_cons_of_pos _ (by simp [hkey])]
        by_cases hhas : mapHas m (normStr r.featureName) = true
        · have hni : ¬ (normStr r.featureName ≠ "" ∧ ¬ mapHas m (normStr r.featureName) = true) :=
            fun hc => hc.2 hhas
          rw [if_neg hni]
          have hsome : (mapGet m k).isSome := by
            rw [← mapHas_eq_isSome, ← hkey]; exact hhas
          rcases Option.isSome_iff_exists.mp hsome with ⟨x, hx⟩
          rw [hx]; rfl
        · have hyes : normStr r.featureName ≠ "" ∧ ¬ mapHas m (normStr r.featureName) = true :=
            ⟨hkne, hhas⟩
          rw [if_pos hyes, mapGet_mapSet, if_pos hkey.symm]
          have hfalse : mapHas m k = false := by
            rw [← hkey]; revert hhas; cases mapHas m (normStr r.featureName) <;> simp
          rw [mapGet_none_of_not_has hfalse]; rfl
      · rw [List.find?_cons_of_neg _ (by simp [hkey])]
        by_cases hins : normStr r.featureName ≠ "" ∧ ¬ mapHas m (normStr r.featureName)
        · simp only [if_pos hins]
          rw [mapGet_mapSet, if_neg (fun h => hkey h.symm)]
        · simp only [if_neg hins]

theorem mapGet_byFeatureName (rows : List EditableRow) (k : String) :
    mapGet (byFeatureName rows) k
      = (if k = "" then none
         else rows.find? (fun r => decide (normStr r.featureName = k))) := by
  unfold byFeatureName buildLookups
  rw [buildLookups_fold]
  simp only
  rw [nameFold_get]
  simp [mapGet]

/-- Every record an index lookup returns carries exactly the looked-up
featureIndex. -/
theorem mapGet_byFeatureIndex_featureIndex {rows : List EditableRow} {v : ℚ}
    {rec : EditableRow} (h : mapGet (byFeatureIndex rows) v = some rec) :
    rec.featureIndex = v := by
  rw [mapGet_byFeatureIndex] at h
  have h2 := List.find?_some h
  simpa using h2

/-- A record with the looked-up featureIndex exists iff the index lookup
succeeds. -/
theorem mapGet_byFeatureIndex_isSome {rows : List EditableRow} {v : ℚ}
    (rec : EditableRow) (hmem : rec ∈ rows) (hfi : rec.featureIndex = v) :
    (mapGet (byFeatureIndex rows) v).isSome := by
  rw [mapGet_byFeatureIndex, List.find?_isSome]
  refine ⟨rec, List.mem_reverse.mpr hmem, by simp [hfi]⟩

/-! Lemmas about the cell-writing primitives. -/

theorem writeVals_length : ∀ (vs l : List Cell) (i : Nat),
    (writeVals l i vs).length = l.length := by
  intro vs
  induction vs with
  | nil => intro l i; rfl
  | cons v vs ih => intro l i; rw [writeVals, ih, List.length_set]

theorem writeVals_getElem?_lt : ∀ (vs l : List Cell) (i j : Nat), j < i →
    (writeVals l i vs)[j]? = l[j]? := by
  intro vs
  induction vs with
  | nil => intro l i j _; rfl
  | cons v vs ih =>
    intro l i j hj
    rw [writeVals, ih _ _ _ (Nat.lt_succ_of_lt hj),
      List.getElem?_set_ne (Nat.ne_of_gt hj)]

theorem writeVals_getElem?_at : ∀ (vs l : List Cell) (i j : Nat),
    j < vs.length → i + vs.length ≤ l.length →
    (writeVals l i vs)[i + j]? = vs[j]? := by
  intro vs
  induction vs with
  | nil => intro l i j hj _; exact absurd hj (Nat.not_lt_zero j)
  | cons v vs ih =>
    intro l i j hj hlen
    cases j with
    | zero =>
      rw [Nat.add_zero, writeVals,
        writeVals_getElem?_lt _ _ _ _ (Nat.lt_succ_self i),
        List.getElem?_set_self]
      · exact (List.getElem?_cons_zero).symm
      · calc i < i + (v :: vs).length := by simp
          _ ≤ l.length := hlen
    | succ j =>
      have : i + (j + 1) = (i + 1) + j := by omega
      rw [this, writeVals, ih _ _ _ (Nat.lt_of_succ_lt_succ hj)
        (by rw [List.length_set]; simp only [List.length_cons] at hlen; omega)]
      exact (List.getElem?_cons_succ).symm

theorem padTo_getElem?_lt (row : List Cell) (n : Nat) {j : Nat}
    (hj : j < row.length) : (padTo row n)[j]? = row[j]? := by
  unfold padTo
  rw [List.getElem?_append, if_pos hj]

theorem padTo_length (row : List Cell) (n : Nat) :
    (padTo row n).length = max row.length n := by
  unfold padTo
  rw [List.length_append, List.length_replicate, Nat.max_def]
  split <;> omega

/-! Lemmas about the whole-grid pass. -/

theorem transformAoaAux_getElem? (rows : List EditableRow)
    (ficol fcol : Int) (baseLen hIdx : Nat) (newHeader : List Cell) :
    ∀ (l : List (List Cell)) (r0 k : Nat),
    (transformAoaAux rows ficol fcol baseLen hIdx newHeader r0 l)[k]? =
      (l[k]?).map (fun row =>
        if r0 + k = hIdx then newHeader
        else if r0 + k < hIdx then row
        else annotateDataRow rows ficol fcol baseLen (r0 + k - (hIdx + 1)) row) := by
  intro l
  induction l with
  | nil => intro r0 k; simp [transformAoaAux]
  | cons row rest ih =>
    intro r0 k
    cases k with
    | zero => simp [transformAoaAux]
    | succ k =>
      have harith : r0 + (k + 1) = (r0 + 1) + k := by omega
      simp only [transformAoaAux, List.getElem?_cons_succ, ih (r0 + 1) k, harith]

theorem transformAoaAux_length (rows : List EditableRow)
    (ficol fcol : Int) (baseLen hIdx : Nat) (newHeader : List Cell) :
    ∀ (l : List (List Cell)) (r0 : Nat),
    (transformAoaAux rows ficol fcol baseLen hIdx newHeader r0 l).length
      = l.length := by
  intro l
  induction l with
  | nil => intro r0; rfl
  | cons row rest ih =>
    intro r0
    simp only [transformAoaAux, List.length_cons, ih (r0 + 1)]

/-! Lemmas about the stable featureIndex sort. -/

theorem mem_orderedInsertByFi (a x : EditableRow) :
    ∀ l, x ∈ orderedInsertByFi a l ↔ x = a ∨ x ∈ l := by
  intro l
  induction l with
  | nil => simp [orderedInsertByFi]
  | cons b bs ih =>
    unfold orderedInsertByFi
    by_cases h : a.featureIndex ≤ b.featureIndex
    · rw [if_pos h]
      simp
    · rw [if_neg h]
      simp only [List.mem_cons, ih]
      tauto

theorem perm_orderedInsertByFi (a : EditableRow) :
    ∀ l, (orderedInsertByFi a l).Perm (a :: l) := by
  intro l
  induction l with
  | nil => exact List.Perm.refl _
  | cons b bs ih =>
    unfold orderedInsertByFi
    by_cases h : a.featureIndex ≤ b.featureIndex
    · rw [if_pos h]
    · rw [if_neg h]
      have h1 : (b :: orderedInsertByFi a bs).Perm (b :: a :: bs) := List.Perm.cons b ih
      have h2 : (b :: a :: bs).Perm (a :: b :: bs) := List.Perm.swap a b bs
      exact h1.trans h2

theorem perm_sortByFeatureIndex (rows : List EditableRow) :
    (sortByFeatureIndex rows).Perm rows := by
  induction rows with
  | nil => exact List.Perm.refl _
  | cons a rest ih =>
    unfold sortByFeatureIndex
    exact (perm_orderedInsertByFi a _).trans (List.Perm.cons a ih)

theorem pairwise_orderedInsertByFi (a : EditableRow) :
    ∀ l, List.Pairwise (fun x y => x.featureIndex ≤ y.featureIndex) l →
      List.Pairwise (fun x y => x.featureIndex ≤ y.featureIndex)
        (orderedInsertByFi a l) := by
  intro l
  induction l with
  | nil => intro _; simp [orderedInsertByFi]
  | cons b bs ih =>
    intro hp
    rcases List.pairwise_cons.mp hp with ⟨hb, hbs⟩
    unfold orderedInsertByFi
    by_cases h : a.featureIndex ≤ b.featureIndex
    · rw [if_pos h]
      refine List.pairwise_cons.mpr ⟨?_, hp⟩
      intro x hx
      rcases List.mem_cons.mp hx with hxb | hxbs
      · rw [hxb]; exact h
      · exact le_trans h (hb x hxbs)
    · rw [if_neg h]
      refine List.pairwise_cons.mpr ⟨?_, ih hbs⟩
      intro x hx
      rcases (mem_orderedInsertByFi a x bs).mp hx with hxa | hxbs
      · rw [hxa]; exact le_of_not_le h
      · exact hb x hxbs

theorem pairwise_sortByFeatureIndex (rows : List EditableRow) :
    List.Pairwise (fun x y => x.featureIndex ≤ y.featureIndex)
      (sortByFeatureIndex rows) := by
  induction rows with
  | nil => simp [sortByFeatureIndex]
  | cons a rest ih =>
    unfold sortByFeatureIndex
    exact pairwise_orderedInsertByFi a _ ih

/-! Lemmas about the header locator. -/

theorem isRowEmpty_false_length_pos {row : List Cell}
    (h : isRowEmpty row = false) : 0 < row.length := by
  cases row with
  | nil => simp [isRowEmpty] at h
  | cons c cs => simp

theorem findHeaderRowIndexAux_all_blank :
    ∀ (l : List (List Cell)) (i : Nat),
      (∀ row ∈ l, isRowEmpty row = true) → findHeaderRowIndexAux l i = 0 := by
  intro l
  induction l with
  | nil => intro i _; rfl
  | cons row rest ih =>
    intro i hall
    unfold findHeaderRowIndexAux
    rw [if_neg (fun hc => hc.2 (hall row (List.mem_cons_self row rest)))]
    exact ih (i + 1) (fun r hr => hall r (List.mem_cons_of_mem row hr))

theorem findHeaderRowIndexAux_found :
    ∀ (l : List (List Cell)) (i : Nat),
      (∃ row ∈ l, isRowEmpty row = false) →
      ∃ j, j < l.length ∧ isRowEmpty (l.getD j []) = false ∧
        findHeaderRowIndexAux l i = i + j ∧
        ∀ j', j' < j → isRowEmpty (l.getD j' []) = true := by
  intro l
  induction l with
  | nil => intro i hex; rcases hex with ⟨row, hmem, _⟩; cases hmem
  | cons row rest ih =>
    intro i hex
    by_cases he : isRowEmpty row = true
    · unfold findHeaderRowIndexAux
      rw [if_neg (fun hc => hc.2 he)]
      have hex' : ∃ r ∈ rest, isRowEmpty r = false := by
        rcases hex with ⟨r, hmem, hfalse⟩
        rcases List.mem_cons.mp hmem with hr | hr
        · rw [hr] at hfalse; rw [hfalse] at he; cases he
        · exact ⟨r, hr, hfalse⟩
      rcases ih (i + 1) hex' with ⟨j, hj, hblankj, heq, hpre⟩
      refine ⟨j + 1, by simpa using Nat.succ_lt_succ hj, by simpa using hblankj,
        by rw [heq]; omega, ?_⟩
      intro j' hj'
      cases j' with
      | zero => simpa using he
      | succ j'' =>
        have := hpre j'' (Nat.lt_of_succ_lt_succ hj')
        simpa using this
    · have he' : isRowEmpty row = false := by
        revert he; cases isRowEmpty row <;> simp
      unfold findHeaderRowIndexAux
      rw [if_pos ⟨isRowEmpty_false_length_pos he', fun hc => (by rw [he'] at hc; cases hc)⟩]
      exact ⟨0, by simp, by simpa using he', by omega, fun j' hj' => absurd hj' (by omega)⟩

/-! Lemmas about the resolution chain. -/

theorem resolveRow_of_indexHit {rows : List EditableRow} {ficol fcol : Int}
    {row : List Cell} {ord : Nat} {rec : EditableRow}
    (h : indexHit rows ficol row = some rec) :
    resolveRow rows ficol fcol row ord = some rec := by
  unfold resolveRow
  rw [h]

theorem indexHit_resolves (rows : List EditableRow) (ficol : Int)
    (row : List Cell) (v : ℚ) (hcol : 0 ≤ ficol)
    (hparse : numAt row ficol.toNat = some v)
    (rec : EditableRow) (hmem : rec ∈ rows) (hfi : rec.featureIndex = v) :
    ∃ rec', indexHit rows ficol row = some rec' ∧ rec'.featureIndex = v := by
  have hsome := mapGet_byFeatureIndex_isSome rec hmem hfi
  rcases Option.isSome_iff_exists.mp hsome with ⟨rec', hrec'⟩
  refine ⟨rec', ?_, mapGet_byFeatureIndex_featureIndex hrec'⟩
  unfold indexHit
  rw [if_pos hcol, hparse]
  exact hrec'

/-! The claims. -/

/-- C2: the header locator returns the 0-based index of the first row of
the grid that is not entirely blank (a cell being blank when its
whitespace-collapsed, trimmed, case-folded text is empty), returns 0 when
every row is blank, and in particular locates a header preceded by two
blank rows at index 2. -/
theorem headerLocator_first_nonblank (aoa : Sheet) :
    ((∃ j, j < aoa.length ∧ isRowEmpty (aoa.getD j []) = false) →
      findHeaderRowIndex aoa < aoa.length ∧
      isRowEmpty (aoa.getD (findHeaderRowIndex aoa) []) = false ∧
      ∀ j, j < findHeaderRowIndex aoa → isRowEmpty (aoa.getD j []) = true) ∧
    ((∀ j, j < aoa.length → isRowEmpty (aoa.getD j []) = true) →
      findHeaderRowIndex aoa = 0) ∧
    (∀ b1 b2 hrow rest, isRowEmpty b1 = true → isRowEmpty b2 = true →
      isRowEmpty hrow = false →
      findHeaderRowIndex (b1 :: b2 :: hrow :: rest) = 2) := by
  refine ⟨?_, ?_, ?_⟩
  · intro hex
    have hex' : ∃ row ∈ aoa, isRowEmpty row = false := by
      rcases hex with ⟨j, hj, hblank⟩
      refine ⟨aoa.getD j [], ?_, hblank⟩
      rw [List.getD_eq_getElem?_getD, List.getElem?_eq_getElem hj]
      exact List.getElem_mem hj
    rcases findHeaderRowIndexAux_found aoa 0 hex' with ⟨j, hj, hblankj, heq, hpre⟩
    unfold findHeaderRowIndex
    rw [heq, Nat.zero_add]
    exact ⟨hj, hblankj, hpre⟩
  · intro hall
    apply findHeaderRowIndexAux_all_blank
    intro row hrow
    rcases List.mem_iff_getElem.mp hrow with ⟨j, hj, hget⟩
    have := hall j hj
    rw [List.getD_eq_getElem?_getD, List.getElem?_eq_getElem hj, hget] at this
    exact this
  · intro b1 b2 hrow rest h1 h2 h3
    have hn1 : ¬ (0 < b1.length ∧ ¬ isRowEmpty b1 = true) := fun hc => hc.2 h1
    have hn2 : ¬ (0 < b2.length ∧ ¬ isRowEmpty b2 = true) := fun hc => hc.2 h2
    have hp3 : 0 < hrow.length ∧ ¬ isRowEmpty hrow = true :=
      ⟨isRowEmpty_false_length_pos h3, fun hc => (by rw [h3] at hc; cases hc)⟩
    unfold findHeaderRowIndex
    simp only [findHeaderRowIndexAux]
    rw [if_neg hn1, if_neg hn2, if_pos hp3]

/-- C2 witness: a grid whose first two rows are blank (an empty-text cell
and a whitespace cell) and whose third row holds a header is located at
index 2. -/
theorem headerLocator_first_nonblank_witness :
    findHeaderRowIndex [[Cell.text ""], [Cell.text " "], [Cell.text "Feature"]] = 2 :=
  (headerLocator_first_nonblank
    [[Cell.text ""], [Cell.text " "], [Cell.text "Feature"]]).2.2
    [Cell.text ""] [Cell.text " "] [Cell.text "Feature"] []
    (by decide) (by decide) (by decide)

/-- C3 counterexample: in `gapSheet` the header is row 0, row 1 is blank
(whitespace) and row 2 is the first non-blank data row, matching no record
by key; its ordinal among non-blank data rows is 0, so the claim says it
receives the record with featureIndex 0 (confidence "R0") — but the
engine writes confidence "R1", the record with featureIndex 1, because
the fallback ordinal counts the blank row too. -/
theorem positional_fallback_cex :
    exportSheetCell
      (exportUploadedExcelWithEstimates (some gapFile) [recOrd0, recOrd1] none)
      0 2 16 = some (Cell.text "R1") ∧
    recOrd0.featureIndex = 0 ∧ recOrd1.featureIndex = 1 ∧
    recOrd0.confidence = "R0" ∧ recOrd1.confidence = "R1" ∧
    isRowEmpty (gapSheet.getD 1 []) = true ∧
    isRowEmpty (gapSheet.getD 2 []) = false ∧
    Cell.text "R1" ≠ Cell.text "R0" := by
  decide

/-- C3 (amended): when neither the index key nor the name key resolves,
the resolver picks position `dataRowOrdinal` — which the engine passes as
the row's offset from the header row among all following rows, blank rows
included — in the list of records stably sorted ascending by
`featureIndex` (a sorted permutation of the input records). -/
theorem positional_fallback_sorted_raw_ordinal
    (rows : List EditableRow) (ficol fcol : Int) (row : List Cell) (ord : Nat)
    (hidx : indexHit rows ficol row = none)
    (hname : nameHit rows fcol row = none) :
    resolveRow rows ficol fcol row ord = (sortByFeatureIndex rows).get? ord ∧
    List.Pairwise (fun a b => a.featureIndex ≤ b.featureIndex)
      (sortByFeatureIndex rows) ∧
    (sortByFeatureIndex rows).Perm rows := by
  refine ⟨?_, pairwise_sortByFeatureIndex rows, perm_sortByFeatureIndex rows⟩
  unfold resolveRow
  rw [hidx, hname]

/-- C3 amended-claim witness: with records of featureIndex 0 and 1 and an
unmatched row at raw ordinal 0 (the row immediately after the header), the
fallback yields the featureIndex-0 record. -/
theorem positional_fallback_sorted_raw_ordinal_witness :
    resolveRow [recOrd1, recOrd0] (-1) 0 [Cell.text "zzz"] 0 = some recOrd0 := by
  have h := positional_fallback_sorted_raw_ordinal [recOrd1, recOrd0] (-1) 0
    [Cell.text "zzz"] 0 (by decide) (by decide)
  rw [h.1]
  decide

/-- C4: the resolver tries the index key first: whenever the feature-index
column exists, the row's index cell coerces to a finite number `v`, and
some record has `featureIndex = v`, the resolved record has
`featureIndex = v` — whatever the name column holds. -/
theorem index_match_outranks_name
    (rows : List EditableRow) (ficol fcol : Int) (row : List Cell) (ord : Nat)
    (v : ℚ) (rec : EditableRow) (hcol : 0 ≤ ficol)
    (hparse : numAt row ficol.toNat = some v)
    (hmem : rec ∈ rows) (hfi : rec.featureIndex = v) :
    ∃ rec', resolveRow rows ficol fcol row ord = some rec' ∧
      rec'.featureIndex = v := by
  rcases indexHit_resolves rows ficol row v hcol hparse rec hmem hfi with
    ⟨rec', hih, hfi'⟩
  exact ⟨rec', resolveRow_of_indexHit hih, hfi'⟩

/-- C4 witness: the row's index cell is 1 (record `recLogin`) while its
name cell is "Logout" (record `recLogout`); the resolver selects the
featureIndex-1 record. -/
theorem index_match_outranks_name_witness :
    ∃ rec', resolveRow [recLogin, recLogout] 0 1
        [Cell.num 1, Cell.text "Logout"] 0 = some rec' ∧
      rec'.featureIndex = 1 :=
  index_match_outranks_name [recLogin, recLogout] 0 1
    [Cell.num 1, Cell.text "Logout"] 0 1 recLogin
    (by decide) (by decide) (by decide) (by decide)

/-- C9: a name-key lookup returns the first record of the input list whose
normalised name equals the (non-empty) key, while an index-key lookup
returns the last record of the input list whose featureIndex equals the
key — later records overwrite earlier ones in the index map, but the name
map only inserts a key not yet present. -/
theorem duplicate_key_resolution (rows : List EditableRow) (k : String) (v : ℚ) :
    (k ≠ "" → mapGet (byFeatureName rows) k
        = rows.find? (fun r => decide (normStr r.featureName = k))) ∧
    mapGet (byFeatureName rows) "" = none ∧
    mapGet (byFeatureIndex rows) v
        = rows.reverse.find? (fun r => decide (r.featureIndex = v)) := by
  refine ⟨?_, ?_, mapGet_byFeatureIndex rows v⟩
  · intro hk
    rw [mapGet_byFeatureName, if_neg hk]
  · rw [mapGet_byFeatureName]
    simp

/-- C9 witness: with two records sharing normalised name "dup" and
featureIndex 5, the name lookup returns the first and the index lookup
returns the second. -/
theorem duplicate_key_resolution_witness :
    mapGet (byFeatureName [dupA, dupB]) "dup" = some dupA ∧
    mapGet (byFeatureIndex [dupA, dupB]) 5 = some dupB := by
  have h := duplicate_key_resolution [dupA, dupB] "dup" 5
  constructor
  · rw [h.1 (by decide)]
    decide
  · rw [h.2.2]
    decide

/-- C10: when the feature-index column exists and the row's index cell is
the blank text "" (as the parser supplies for missing cells), the numeric
coercion yields 0, so if any record has featureIndex 0 the row resolves to
a record of featureIndex 0, whatever the name column or the row position
would have given. -/
theorem blank_index_cell_selects_record_zero
    (rows : List EditableRow) (ficol fcol : Int) (row : List Cell) (ord : Nat)
    (rec : EditableRow) (hcol : 0 ≤ ficol)
    (hcell : row.get? ficol.toNat = some (Cell.text ""))
    (hmem : rec ∈ rows) (hfi : rec.featureIndex = 0) :
    ∃ rec', resolveRow rows ficol fcol row ord = some rec' ∧
      rec'.featureIndex = 0 := by
  have hparse : numAt row ficol.toNat = some 0 := by
    unfold numAt
    rw [hcell]
    decide
  rcases indexHit_resolves rows ficol row 0 hcol hparse rec hmem hfi with
    ⟨rec', hih, hfi'⟩
  exact ⟨rec', resolveRow_of_indexHit hih, hfi'⟩

/-- C10 witness: a blank index cell next to a name cell matching the
featureIndex-1 record still resolves to the featureIndex-0 record. -/
theorem blank_index_cell_selects_record_zero_witness :
    ∃ rec', resolveRow [recOrd0, recOrd1] 0 1
        [Cell.text "", Cell.text "bbb"] 0 = some rec' ∧
      rec'.featureIndex = 0 :=
  blank_index_cell_selects_record_zero [recOrd0, recOrd1] 0 1
    [Cell.text "", Cell.text "bbb"] 0 recOrd0
    (by decide) (by decide) (by decide) (by decide)

/-- The annotation pass preserves the row count, and every cell lying in
a column strictly below the header row's width keeps exactly its value and
(row, column) position — on the rectangular grids `getAoa` produces, where
every row has exactly the header row's width, this covers every cell. -/
theorem additive_below_header_width (rows : List EditableRow) (aoa : Sheet) :
    (annotateAoa rows aoa).length = aoa.length ∧
    ∀ r c cell, c < ((aoa.get? (findHeaderRowIndex aoa)).getD []).length →
      (aoa.get? r).bind (fun row => row.get? c) = some cell →
      ((annotateAoa rows aoa).get? r).bind (fun row => row.get? c) = some cell := by
  have hdef : annotateAoa rows aoa
      = transformAoaAux rows
          (pickColumnIndex ((aoa.get? (findHeaderRowIndex aoa)).getD [])
            featureIndexCandidates)
          (pickColumnIndex ((aoa.get? (findHeaderRowIndex aoa)).getD [])
            featureCandidates)
          ((aoa.get? (findHeaderRowIndex aoa)).getD []).length
          (findHeaderRowIndex aoa)
          (((aoa.get? (findHeaderRowIndex aoa)).getD [])
            ++ appendedHeaders.map Cell.text)
          0 aoa := rfl
  rw [hdef]
  constructor
  · exact transformAoaAux_length _ _ _ _ _ _ aoa 0
  · intro r c cell hc hcell
    rcases Option.bind_eq_some.mp hcell with ⟨row, hrowEq, hcellEq⟩
    rw [List.get?_eq_getElem?] at hrowEq
    rw [List.get?_eq_getElem?] at hcellEq
    rw [List.get?_eq_getElem?, transformAoaAux_getElem?, hrowEq]
    simp only [Option.map_some', Option.some_bind, Nat.zero_add]
    rw [List.get?_eq_getElem?]
    by_cases h1 : r = findHeaderRowIndex aoa
    · rw [if_pos h1]
      have hrowhdr : (aoa.get? (findHeaderRowIndex aoa)).getD [] = row := by
        rw [List.get?_eq_getElem?, ← h1, hrowEq]
        rfl
      rw [List.getElem?_append, if_pos (by rw [hrowhdr]; rw [hrowhdr] at hc; exact hc)]
      rw [hrowhdr]
      exact hcellEq
    · rw [if_neg h1]
      by_cases h2 : r < findHeaderRowIndex aoa
      · rw [if_pos h2]
        exact hcellEq
      · rw [if_neg h2]
        unfold annotateDataRow
        by_cases hemp : isRowEmpty row = true
        · rw [if_pos hemp]
          exact hcellEq
        · rw [if_neg hemp]
          have hclen : c < row.length := by
            by_contra hge
            rw [List.getElem?_eq_none (Nat.le_of_not_lt hge)] at hcellEq
            cases hcellEq
          cases hres : resolveRow rows
              (pickColumnIndex ((aoa.get? (findHeaderRowIndex aoa)).getD [])
                featureIndexCandidates)
              (pickColumnIndex ((aoa.get? (findHeaderRowIndex aoa)).getD [])
                featureCandidates)
              row (r - (findHeaderRowIndex aoa + 1)) with
          | none =>
            simp only [hres]
            rw [padTo_getElem?_lt row _ hclen]
            exact hcellEq
          | some hrec =>
            simp only [hres]
            rw [writeVals_getElem?_lt _ _ _ _ hc, padTo_getElem?_lt row _ hclen]
            exact hcellEq

theorem appendedHeaders_length : appendedHeaders.length = 19 := rfl

theorem rowValues_length (rec : EditableRow) : (rowValues rec).length = 19 := rfl

/-- C6: the headers appended to the header row, immediately after its last
existing cell, are exactly the three per-department headers in department
enumeration order followed by the four scalar headers; and a matched data
row receives, in the appended columns and in the same order, the record's
per-department min/mostLikely/max values followed by confidence,
complexity, techRemarks and userRemark. -/
theorem appended_columns_exact (rows : List EditableRow) (aoa : Sheet) :
    appendedHeaders =
      ["AI Frontend Min", "AI Frontend MostLikely", "AI Frontend Max",
       "AI Backend Min", "AI Backend MostLikely", "AI Backend Max",
       "AI Mobile Min", "AI Mobile MostLikely", "AI Mobile Max",
       "AI HTML/CSS Min", "AI HTML/CSS MostLikely", "AI HTML/CSS Max",
       "AI AI/ML Min", "AI AI/ML MostLikely", "AI AI/ML Max",
       "AI Confidence", "AI Complexity", "AI Tech Remarks",
       "AI User Remark"] ∧
    (∀ rec, rowValues rec =
      [Cell.num rec.ranges.frontend.min, Cell.num rec.ranges.frontend.mostLikely,
       Cell.num rec.ranges.frontend.max,
       Cell.num rec.ranges.backend.min, Cell.num rec.ranges.backend.mostLikely,
       Cell.num rec.ranges.backend.max,
       Cell.num rec.ranges.mobile.min, Cell.num rec.ranges.mobile.mostLikely,
       Cell.num rec.ranges.mobile.max,
       Cell.num rec.ranges.htmlCss.min, Cell.num rec.ranges.htmlCss.mostLikely,
       Cell.num rec.ranges.htmlCss.max,
       Cell.num rec.ranges.aiMl.min, Cell.num rec.ranges.aiMl.mostLikely,
       Cell.num rec.ranges.aiMl.max,
       Cell.text rec.confidence, Cell.text rec.complexity,
       Cell.text rec.techRemarks, Cell.text rec.userRemark]) ∧
    (annotateAoa rows aoa).get? (findHeaderRowIndex aoa)
      = (aoa.get? (findHeaderRowIndex aoa)).map
          (fun hdr => hdr ++ appendedHeaders.map Cell.text) ∧
    ∀ r row rec, findHeaderRowIndex aoa < r → aoa.get? r = some row →
      isRowEmpty row = false →
      resolveRow rows
        (pickColumnIndex ((aoa.get? (findHeaderRowIndex aoa)).getD [])
          featureIndexCandidates)
        (pickColumnIndex ((aoa.get? (findHeaderRowIndex aoa)).getD [])
          featureCandidates)
        row (r - (findHeaderRowIndex aoa + 1)) = some rec →
      ∀ j, j < 19 →
        ((annotateAoa rows aoa).get? r).bind
          (fun row' =>
            row'.get? (((aoa.get? (findHeaderRowIndex aoa)).getD []).length + j))
          = (rowValues rec).get? j := by
  have hdef : annotateAoa rows aoa
      = transformAoaAux rows
          (pickColumnIndex ((aoa.get? (findHeaderRowIndex aoa)).getD [])
            featureIndexCandidates)
          (pickColumnIndex ((aoa.get? (findHeaderRowIndex aoa)).getD [])
            featureCandidates)
          ((aoa.get? (findHeaderRowIndex aoa)).getD []).length
          (findHeaderRowIndex aoa)
          (((aoa.get? (findHeaderRowIndex aoa)).getD [])
            ++ appendedHeaders.map Cell.text)
          0 aoa := rfl
  refine ⟨by decide, fun rec => rfl, ?_, ?_⟩
  · rw [hdef, List.get?_eq_getElem?, transformAoaAux_getElem?]
    cases hh : aoa[findHeaderRowIndex aoa]? with
    | none =>
      rw [List.get?_eq_getElem?, hh]
      rfl
    | some hdr =>
      rw [List.get?_eq_getElem?, hh]
      simp
  · intro r row rec hr hrowEq hemp hres j hj
    rw [List.get?_eq_getElem?] at hrowEq
    rw [hdef, List.get?_eq_getElem?, transformAoaAux_getElem?, hrowEq]
    simp only [Option.map_some', Option.some_bind, Nat.zero_add]
    rw [if_neg (by omega), if_neg (by omega)]
    unfold annotateDataRow
    rw [if_neg (by rw [hemp]; exact Bool.false_ne_true)]
    simp only [hres]
    rw [List.get?_eq_getElem?, List.get?_eq_getElem?,
      writeVals_getElem?_at (rowValues rec) _ _ j
        (by rw [rowValues_length]; exact hj)
        (by
          rw [rowValues_length, padTo_length, appendedHeaders_length]
          exact Nat.le_max_right _ _)]
    rw [List.get?_eq_getElem?]

/-- C6 witness: in the scenario sheet, data row 1 matched `recLogin` and
its first appended column (index 3 = header width) holds the frontend
minimum, 2. -/
theorem appended_columns_exact_witness :
    ((annotateAoa [recLogin, recLogout] scenSheet).get? 1).bind
      (fun row' => row'.get? (((scenSheet.get? (findHeaderRowIndex scenSheet)).getD []).length + 0))
      = (rowValues recLogin).get? 0 :=
  (appended_columns_exact [recLogin, recLogout] scenSheet).2.2.2 1
    [Cell.num 1, Cell.text "Login", Cell.text "-"] recLogin
    (by decide) (by decide) (by decide) (by decide) 0 (by decide)

/-- Every successful export selects a sheet, parses its grid through
`getAoa`, and returns the workbook with that parsed grid annotated plus
the chosen file name. -/
theorem export_ok_shape (file : UploadedFile) (rows : List EditableRow)
    (outName : Option String) (res : ExportResult)
    (h : exportUploadedExcelWithEstimates (some file) rows outName = .ok res) :
    ∃ name ws, selectedSheetName file.wb = some name ∧
      getSheet file.wb name = some ws ∧ getAoa ws ≠ [] ∧
      res.wb = writeAoa file.wb name (annotateAoa rows (getAoa ws)) ∧
      res.fileName
        = outName.getD (stripSpreadsheetExt file.name ++ "_with_estimates.xlsx") := by
  simp only [exportUploadedExcelWithEstimates] at h
  by_cases h0 : rows.length = 0
  · rw [if_pos h0] at h
    cases h
  rw [if_neg h0] at h
  cases hsel : selectedSheetName file.wb with
  | none =>
    simp only [hsel] at h
    cases h
  | some name =>
    simp only [hsel] at h
    cases hget : getSheet file.wb name with
    | none =>
      simp only [hget] at h
      cases h
    | some ws =>
      simp only [hget] at h
      by_cases ha : (getAoa ws).length = 0
      · rw [if_pos ha] at h
        cases h
      rw [if_neg ha] at h
      by_cases hcols :
          pickColumnIndex (((getAoa ws).get? (findHeaderRowIndex (getAoa ws))).getD [])
            featureCandidates < 0 ∧
          pickColumnIndex (((getAoa ws).get? (findHeaderRowIndex (getAoa ws))).getD [])
            featureIndexCandidates < 0
      · rw [if_pos hcols] at h
        cases h
      rw [if_neg hcols] at h
      have hres := Except.ok.inj h
      refine ⟨name, ws, rfl, hget, ?_, ?_, ?_⟩
      · intro hnil
        rw [hnil] at ha
        exact ha rfl
      · rw [← hres]
      · rw [← hres]

/-- C7 counterexample: for an original file named "data.xls" the suggested
output name is "data_with_estimates.xlsx" — the suffix extension is always
"xlsx" — whereas the claim's output name for this input would be
"data_with_estimates.xls". -/
theorem output_name_extension_cex :
    (exportUploadedExcelWithEstimates (some xlsFile) [recX] none).toOption.map
      (fun r => r.fileName) = some "data_with_estimates.xlsx" ∧
    xlsFile.name = "data.xls" ∧
    "data_with_estimates.xlsx" ≠ "data_with_estimates.xls" := by
  decide

/-- C7 (amended): an explicit output name is used verbatim; otherwise the
suggested name is the original base name (case-insensitive ".xlsx"/".xls"
stripped) followed by the fixed suffix "_with_estimates.xlsx", regardless
of the original file's extension. -/
theorem export_output_name (file : UploadedFile) (rows : List EditableRow)
    (outName : Option String) (res : ExportResult)
    (h : exportUploadedExcelWithEstimates (some file) rows outName = .ok res) :
    (∀ s, outName = some s → res.fileName = s) ∧
    (outName = none →
      res.fileName = stripSpreadsheetExt file.name ++ "_with_estimates.xlsx") := by
  rcases export_ok_shape file rows outName res h with ⟨name, ws, _, _, _, _, hname⟩
  constructor
  · intro s hs
    rw [hname, hs]
    rfl
  · intro hn
    rw [hname, hn]
    rfl

/-- C7 amended-claim witness: the ".xls" original with no explicit name
yields base name "data" plus the fixed ".xlsx" suffix. -/
theorem export_output_name_witness :
    ∃ res, exportUploadedExcelWithEstimates (some xlsFile) [recX] none = .ok res ∧
      res.fileName = stripSpreadsheetExt xlsFile.name ++ "_with_estimates.xlsx" := by
  have hok : exportUploadedExcelWithEstimates (some xlsFile) [recX] none
      = .ok ⟨writeAoa xlsFile.wb "S" (annotateAoa [recX] (getAoa raggedSheet)),
             "data_with_estimates.xlsx"⟩ := by decide
  exact ⟨_, hok, (export_output_name xlsFile [recX] none _ hok).2 rfl⟩

/-- C8: a successful export annotates exactly the selected sheet — the
second when the workbook has a second sheet, else the first — replacing
its grid with the annotated grid, and every sheet entry with a different
name is identical (same position, same name, same grid) in the output. -/
theorem second_sheet_selected_frame (file : UploadedFile)
    (rows : List EditableRow) (outName : Option String) (res : ExportResult)
    (name : String)
    (h : exportUploadedExcelWithEstimates (some file) rows outName = .ok res)
    (hsel : selectedSheetName file.wb = some name) :
    res.wb.sheets.length = file.wb.sheets.length ∧
    (∀ i entry, file.wb.sheets.get? i = some entry → entry.1 ≠ name →
      res.wb.sheets.get? i = some entry) ∧
    (∃ ws, getSheet file.wb name = some ws ∧
      res.wb = writeAoa file.wb name (annotateAoa rows (getAoa ws))) ∧
    (∀ n0 n1 rest, sheetNamesOf file.wb = n0 :: n1 :: rest → name = n1) ∧
    (∀ n0, sheetNamesOf file.wb = [n0] → name = n0) := by
  rcases export_ok_shape file rows outName res h with
    ⟨name', ws, hsel', hget, _, hwb, _⟩
  rw [hsel] at hsel'
  have hn : name' = name := (Option.some.inj hsel').symm
  subst hn
  refine ⟨?_, ?_, ⟨ws, hget, hwb⟩, ?_, ?_⟩
  · rw [hwb]
    unfold writeAoa
    simp
  · intro i entry hi hne
    rw [hwb]
    unfold writeAoa
    rw [List.get?_eq_getElem?] at hi
    rw [List.get?_eq_getElem?]
    simp only [List.getElem?_map, hi, Option.map_some']
    rw [if_neg hne]
  · intro n0 n1 rest hnames
    unfold selectedSheetName at hsel
    rw [hnames] at hsel
    simp at hsel
    exact hsel.symm
  · intro n0 hnames
    unfold selectedSheetName at hsel
    rw [hnames] at hsel
    simp at hsel
    exact hsel.symm

/-- C8 witness: exporting the two-sheet scenario workbook leaves the first
sheet ("Cover") untouched at its position. -/
theorem second_sheet_selected_frame_witness :
    ∃ res, exportUploadedExcelWithEstimates (some scenFile)
        [recLogin, recLogout] none = .ok res ∧
      res.wb.sheets.get? 0 = some ("Cover", [[Cell.text "x"]]) := by
  have hok : exportUploadedExcelWithEstimates (some scenFile)
      [recLogin, recLogout] none
      = .ok ⟨writeAoa scenFile.wb "Data"
              (annotateAoa [recLogin, recLogout] (getAoa scenSheet)),
             "book_with_estimates.xlsx"⟩ := by decide
  have h := (second_sheet_selected_frame scenFile [recLogin, recLogout] none _
    "Data" hok (by decide)).2.1 0 ("Cover", [[Cell.text "x"]])
    (by decide) (by decide)
  exact ⟨_, hok, h⟩

/-- C5: the export fails with the claimed error for each failure mode —
no file, empty record list, zero sheets, empty selected sheet, no key
column — in that test order; when the guards pass it returns the annotated
workbook (so no error is ever raised per row), and a data row whose
resolution fails is merely padded with blank cells. In the embedding an
error outcome carries no workbook at all, so a failing export mutates no
sheet. -/
theorem export_error_taxonomy :
    (∀ rows outName, exportUploadedExcelWithEstimates none rows outName
        = .error .missingFile) ∧
    (∀ file outName, exportUploadedExcelWithEstimates (some file) [] outName
        = .error .noEstimatesProvided) ∧
    (∀ file rows outName, rows ≠ [] → file.wb.sheets = [] →
      exportUploadedExcelWithEstimates (some file) rows outName
        = .error .noSheetsFound) ∧
    (∀ file rows outName name ws, rows ≠ [] →
      selectedSheetName file.wb = some name →
      getSheet file.wb name = some ws → getAoa ws = [] →
      exportUploadedExcelWithEstimates (some file) rows outName
        = .error .emptySheet) ∧
    (∀ file rows outName name ws, rows ≠ [] →
      selectedSheetName file.wb = some name →
      getSheet file.wb name = some ws → getAoa ws ≠ [] →
      pickColumnIndex (((getAoa ws).get? (findHeaderRowIndex (getAoa ws))).getD [])
        featureCandidates < 0 →
      pickColumnIndex (((getAoa ws).get? (findHeaderRowIndex (getAoa ws))).getD [])
        featureIndexCandidates < 0 →
      exportUploadedExcelWithEstimates (some file) rows outName
        = .error .missingKeyColumn) ∧
    (∀ file rows outName name ws, rows ≠ [] →
      selectedSheetName file.wb = some name →
      getSheet file.wb name = some ws → getAoa ws ≠ [] →
      (0 ≤ pickColumnIndex (((getAoa ws).get? (findHeaderRowIndex (getAoa ws))).getD [])
          featureCandidates ∨
       0 ≤ pickColumnIndex (((getAoa ws).get? (findHeaderRowIndex (getAoa ws))).getD [])
          featureIndexCandidates) →
      exportUploadedExcelWithEstimates (some file) rows outName
        = .ok ⟨writeAoa file.wb name (annotateAoa rows (getAoa ws)),
               outName.getD (stripSpreadsheetExt file.name
                 ++ "_with_estimates.xlsx")⟩) ∧
    (∀ rows ficol fcol baseLen ord row, isRowEmpty row = false →
      resolveRow rows ficol fcol row ord = none →
      annotateDataRow rows ficol fcol baseLen ord row
        = padTo row (baseLen + appendedHeaders.length)) := by
  refine ⟨fun rows outName => rfl, fun file outName => rfl, ?_, ?_, ?_, ?_, ?_⟩
  · intro file rows outName hr hs
    have hlen : ¬ rows.length = 0 := by
      simpa [List.length_eq_zero] using hr
    have hsel : selectedSheetName file.wb = none := by
      unfold selectedSheetName sheetNamesOf
      rw [hs]
      rfl
    simp only [exportUploadedExcelWithEstimates, if_neg hlen, hsel]
  · intro file rows outName name ws hr hsel hget hga
    have hlen : ¬ rows.length = 0 := by
      simpa [List.length_eq_zero] using hr
    have halen : (getAoa ws).length = 0 := by
      rw [hga]
      rfl
    simp only [exportUploadedExcelWithEstimates, if_neg hlen, hsel, hget,
      if_pos halen]
  · intro file rows outName name ws hr hsel hget ha h5 h6
    have hlen : ¬ rows.length = 0 := by
      simpa [List.length_eq_zero] using hr
    have halen : ¬ (getAoa ws).length = 0 := by
      simpa [List.length_eq_zero] using ha
    simp only [exportUploadedExcelWithEstimates, if_neg hlen, hsel, hget,
      if_neg halen]
    rw [if_pos ⟨h5, h6⟩]
  · intro file rows outName name ws hr hsel hget ha hor
    have hlen : ¬ rows.length = 0 := by
      simpa [List.length_eq_zero] using hr
    have halen : ¬ (getAoa ws).length = 0 := by
      simpa [List.length_eq_zero] using ha
    have hnc : ¬ (pickColumnIndex
          (((getAoa ws).get? (findHeaderRowIndex (getAoa ws))).getD [])
          featureCandidates < 0 ∧
        pickColumnIndex
          (((getAoa ws).get? (findHeaderRowIndex (getAoa ws))).getD [])
          featureIndexCandidates < 0) := by
      rcases hor with h | h
      · exact fun hc => absurd hc.1 (not_lt.mpr h)
      · exact fun hc => absurd hc.2 (not_lt.mpr h)
    simp only [exportUploadedExcelWithEstimates, if_neg hlen, hsel, hget,
      if_neg halen, if_neg hnc]
  · intro rows ficol fcol baseLen ord row hemp hres
    unfold annotateDataRow
    rw [if_neg (by rw [hemp]; exact Bool.false_ne_true)]
    simp only [hres]

/-- C5 witness: one concrete input per failure mode, each yielding exactly
the claimed error. -/
theorem export_error_taxonomy_witness :
    exportUploadedExcelWithEstimates none [recX] none = .error .missingFile ∧
    exportUploadedExcelWithEstimates (some raggedFile) [] none
      = .error .noEstimatesProvided ∧
    exportUploadedExcelWithEstimates (some ⟨"b.xlsx", ⟨[]⟩⟩) [recX] none
      = .error .noSheetsFound ∧
    exportUploadedExcelWithEstimates (some ⟨"b.xlsx", ⟨[("S", [])]⟩⟩) [recX]
      none = .error .emptySheet ∧
    exportUploadedExcelWithEstimates
      (some ⟨"b.xlsx", ⟨[("S", [[Cell.text "nokey"]])]⟩⟩) [recX] none
      = .error .missingKeyColumn :=
  ⟨export_error_taxonomy.1 [recX] none,
   export_error_taxonomy.2.1 raggedFile none,
   export_error_taxonomy.2.2.1 ⟨"b.xlsx", ⟨[]⟩⟩ [recX] none
     (by decide) rfl,
   export_error_taxonomy.2.2.2.1 ⟨"b.xlsx", ⟨[("S", [])]⟩⟩ [recX] none "S" []
     (by decide) (by decide) (by decide) (by decide),
   export_error_taxonomy.2.2.2.2.1 ⟨"b.xlsx", ⟨[("S", [[Cell.text "nokey"]])]⟩⟩
     [recX] none "S" [[Cell.text "nokey"]]
     (by decide) (by decide) (by decide) (by decide) (by decide) (by decide)⟩

theorem le_foldr_max : ∀ (l : List Nat) (x : Nat), x ∈ l →
    x ≤ l.foldr Nat.max 0 := by
  intro l
  induction l with
  | nil => intro x hx; cases hx
  | cons y l ih =>
    intro x hx
    rcases List.mem_cons.mp hx with hxy | hxl
    · rw [hxy]
      exact Nat.le_max_left y (l.foldr Nat.max 0)
    · exact le_trans (ih x hxl) (Nat.le_max_right y (l.foldr Nat.max 0))

/-- Every row the parser emits has exactly the sheet's full column width:
the grids the engine receives are rectangular. -/
theorem getAoa_row_length {ws : Sheet} {row : List Cell}
    (h : row ∈ getAoa ws) : row.length = sheetWidth ws := by
  unfold getAoa at h
  rcases List.mem_map.mp h with ⟨row0, hmem0, heq⟩
  have hmemws : row0 ∈ ws := List.mem_of_mem_filter hmem0
  have hle : row0.length ≤ sheetWidth ws :=
    le_foldr_max (ws.map List.length) row0.length
      (List.mem_map.mpr ⟨row0, hmemws, rfl⟩)
  rw [← heq, List.length_append, List.length_replicate]
  omega

theorem findHeaderRowIndex_lt_length {aoa : Sheet} (h : aoa ≠ []) :
    findHeaderRowIndex aoa < aoa.length := by
  by_cases hex : ∃ row ∈ aoa, isRowEmpty row = false
  · rcases findHeaderRowIndexAux_found aoa 0 hex with ⟨j, hj, _, heq, _⟩
    unfold findHeaderRowIndex
    rw [heq]
    omega
  · have hall : ∀ row ∈ aoa, isRowEmpty row = true := by
      intro row hrow
      rcases hb : isRowEmpty row with _ | _
      · exact absurd ⟨row, hrow, hb⟩ hex
      · rfl
    unfold findHeaderRowIndex
    rw [findHeaderRowIndexAux_all_blank aoa 0 hall]
    exact List.length_pos.mpr h

/-- Writing a grid under an existing sheet name makes that name read back
as exactly that grid. -/
theorem getSheet_writeAoa (wb : Workbook) (name : String) (aoa' : Sheet)
    (h : (getSheet wb name).isSome) :
    getSheet (writeAoa wb name aoa') name = some aoa' := by
  rcases wb with ⟨l⟩
  unfold getSheet at h
  unfold getSheet writeAoa
  dsimp only at h ⊢
  revert h
  induction l with
  | nil =>
    intro h
    simp at h
  | cons e l ih =>
    intro h
    by_cases he : e.1 = name
    · simp only [List.map_cons, if_pos he]
      rw [List.find?_cons_of_pos _ (by simp)]
      rfl
    · simp only [List.map_cons, if_neg he]
      rw [List.find?_cons_of_neg _ (by simp [he])]
      rw [List.find?_cons_of_neg _ (by simp [he])] at h
      exact ih h

/-- C1: on every successful export, the selected sheet's parsed grid — as
`getAoa` reads it, with every in-range missing cell filled with "" so each
row has the sheet's full column width, however ragged the stored sheet —
is only appended to: the output workbook carries the annotated grid under
the selected name, the row count is unchanged, and every pre-existing cell
keeps exactly its input value and its input (row, column) position. -/
theorem additive_parsed_grid (file : UploadedFile) (rows : List EditableRow)
    (outName : Option String) (res : ExportResult) (name : String) (ws : Sheet)
    (h : exportUploadedExcelWithEstimates (some file) rows outName = .ok res)
    (hsel : selectedSheetName file.wb = some name)
    (hws : getSheet file.wb name = some ws) :
    getSheet res.wb name = some (annotateAoa rows (getAoa ws)) ∧
    (annotateAoa rows (getAoa ws)).length = (getAoa ws).length ∧
    ∀ r c cell,
      ((getAoa ws).get? r).bind (fun row => row.get? c) = some cell →
      ((annotateAoa rows (getAoa ws)).get? r).bind (fun row => row.get? c)
        = some cell := by
  rcases export_ok_shape file rows outName res h with
    ⟨name', ws', hsel', hws', _, hwb, _⟩
  rw [hsel] at hsel'
  have hn : name = name' := Option.some.inj hsel'
  rw [← hn] at hws' hwb
  rw [hws] at hws'
  have hw : ws = ws' := Option.some.inj hws'
  rw [← hw] at hwb
  refine ⟨?_, (additive_below_header_width rows (getAoa ws)).1, ?_⟩
  · rw [hwb]
    exact getSheet_writeAoa file.wb name _ (by rw [hws]; rfl)
  · intro r c cell hcell
    apply (additive_below_header_width rows (getAoa ws)).2 r c cell ?_ hcell
    rcases Option.bind_eq_some.mp hcell with ⟨row, hrowEq, hcellEq⟩
    rw [List.get?_eq_getElem?] at hrowEq
    have hrlen : row.length = sheetWidth ws :=
      getAoa_row_length (List.getElem?_mem hrowEq)
    have hclt : c < row.length := by
      by_contra hge
      rw [List.get?_eq_getElem?,
        List.getElem?_eq_none (Nat.le_of_not_lt hge)] at hcellEq
      cases hcellEq
    have haoane : getAoa ws ≠ [] := by
      intro hnil
      rw [hnil] at hrowEq
      cases hrowEq
    have hhlt := findHeaderRowIndex_lt_length haoane
    have hh : (getAoa ws)[findHeaderRowIndex (getAoa ws)]?
        = some ((getAoa ws).get ⟨findHeaderRowIndex (getAoa ws), hhlt⟩) := by
      rw [List.getElem?_eq_getElem hhlt]
      rfl
    have hhlen : ((getAoa ws).get ⟨findHeaderRowIndex (getAoa ws), hhlt⟩).length
        = sheetWidth ws :=
      getAoa_row_length (List.getElem?_mem hh)
    rw [List.get?_eq_getElem?, hh, Option.getD_some, hhlen, ← hrlen]
    exact hclt

/-- C1 witness: exporting the scenario workbook succeeds and the parsed
data cell at row 1, column 0 (the value 1) is unchanged in the annotated
grid. -/
theorem additive_parsed_grid_witness :
    ∃ res, exportUploadedExcelWithEstimates (some scenFile)
        [recLogin, recLogout] none = .ok res ∧
      ((annotateAoa [recLogin, recLogout] (getAoa scenSheet)).get? 1).bind
        (fun row => row.get? 0) = some (Cell.num 1) := by
  have hok : exportUploadedExcelWithEstimates (some scenFile)
      [recLogin, recLogout] none
      = .ok ⟨writeAoa scenFile.wb "Data"
              (annotateAoa [recLogin, recLogout] (getAoa scenSheet)),
             "book_with_estimates.xlsx"⟩ := by decide
  have h := (additive_parsed_grid scenFile [recLogin, recLogout] none _ "Data"
    scenSheet hok (by decide) (by decide)).2.2 1 0 (Cell.num 1) (by decide)
  exact ⟨_, hok, h⟩

end Annotate
